import Mathlib

/-!
Verification development for the `saritasa-pr-approved-action` repository.

The repository contains three TypeScript entry points sharing one shape:

* `src/unnamed/part_001` — the review-policy variant whose threshold input is
  parsed with an unanchored regular expression followed by `parseInt`, guarded
  by an action check (`submitted` / `review_requested`);
* `src/unnamed/part_002` — the review-policy variant whose threshold input is
  parsed with `Number(...)`, raising a failure signal on malformed values;
* `src/src/main.ts` — the lead-reviewer variant, which checks that every
  configured lead reviewer appears among the requested reviewers.

The definitions below are a shallow embedding of those sources.  A JavaScript
`Map<string, string>` is modelled as an insertion-ordered association list
whose `set` updates an existing key in place and otherwise appends, exactly
the ECMAScript `Map.prototype.set` contract; a `Set<string>` is modelled as a
duplicate-free insertion-ordered list.  Review states are the literal strings
of the source enum (`"APPROVED"` etc.), so comparisons are the `===` string
comparisons of the source.
-/

namespace PrApproved

/-- Review states are the string values of the source `enum ReviewState`;
the GitHub API may return further strings (for example `"COMMENTED"`), which
the source stores in the aggregate unchanged via `review.state as ReviewState`. -/
abbrev ReviewState := String

/-- String value of `ReviewState.Approved` in the source. -/
def ReviewState.Approved : ReviewState := "APPROVED"

/-- String value of `ReviewState.ChangesRequested` in the source. -/
def ReviewState.ChangesRequested : ReviewState := "CHANGES_REQUESTED"

/-- String value of `ReviewState.Pending` in the source. -/
def ReviewState.Pending : ReviewState := "PENDING"

/-- One posted review as consumed by the source: `review.user?.login` may be
absent (`null` user or `null` login, both collapsed into `none`), and
`review.state` is the platform's state string. -/
structure Review where
  user : Option String
  state : ReviewState
deriving Repr, DecidableEq

/-- The `codeReviewProgress` map: reviewer login to current review state,
in insertion order, at most one entry per key. -/
abbrev Aggregate := List (String × ReviewState)

/-- ECMAScript `Map.prototype.set`: update the entry for `k` in place if it
exists, otherwise append `(k, v)` at the end. -/
def mapSet (m : Aggregate) (k : String) (v : ReviewState) : Aggregate :=
  match m with
  | [] => [(k, v)]
  | (k', v') :: rest => if k' = k then (k', v) :: rest else (k', v') :: mapSet rest k v

/-- ECMAScript `Map.prototype.get`: the value stored for `k`, if any. -/
def lookupState (m : Aggregate) (k : String) : Option ReviewState :=
  match m with
  | [] => none
  | (k', v) :: rest => if k' = k then some v else lookupState rest k

/-- Key list of the aggregate, in insertion order. -/
def keys (m : Aggregate) : List String := m.map Prod.fst

/-- One step of the `postedReviews.data.forEach` loop of both review-policy
variants: skip the review when `review.user?.login == null`, otherwise
`codeReviewProgress.set(review.user.login, review.state)`. -/
def reviewStep (m : Aggregate) (r : Review) : Aggregate :=
  match r.user with
  | some login => mapSet m login r.state
  | none => m

/-- One step of the `requestedReviewers.data.users.forEach` loop:
`codeReviewProgress.set(reviewer.login, ReviewState.Pending)`. -/
def pendingStep (m : Aggregate) (login : String) : Aggregate :=
  mapSet m login ReviewState.Pending

/-- The `codeReviewProgress` aggregation of both review-policy variants:
fold the posted reviews first (in API order), then fold the pending review
requests, each pass writing through `Map.set`. -/
def codeReviewProgress (reviews : List Review) (pending : List String) : Aggregate :=
  List.foldl pendingStep (List.foldl reviewStep [] reviews) pending

/-- The source's `Array.from(codeReviewProgress.values())`. -/
def reviewStatesOf (m : Aggregate) : List ReviewState := m.map Prod.snd

/-- The source's `reviewStates.filter(s => s === ReviewState.Approved).length`. -/
def approvesAmountOf (m : Aggregate) : Nat :=
  ((reviewStatesOf m).filter (fun s => s == ReviewState.Approved)).length

/-- The source's `reviewStates.filter(s => s === ReviewState.ChangesRequested).length`. -/
def changesRequestedAmountOf (m : Aggregate) : Nat :=
  ((reviewStatesOf m).filter (fun s => s == ReviewState.ChangesRequested)).length

/-- The verdict `approvesAmount >= requiredApprovesAmount && changesRequestedAmount === 0`
of both review-policy variants.  The threshold is an integer; the regex variant
always produces a positive integer and the `Number` variant an arbitrary one. -/
def isApproved (m : Aggregate) (required : Int) : Bool :=
  decide (required ≤ (approvesAmountOf m : Int)) && decide (changesRequestedAmountOf m = 0)

/-- ECMAScript `Set.prototype.add` on a duplicate-free insertion-ordered list:
append the element unless it is already present. -/
def setAdd (s : List String) (x : String) : List String :=
  if x ∈ s then s else s ++ [x]

/-- The `requestedReviewers : Set<string>` construction of `src/src/main.ts`:
add the author login of every posted review whose `user?.login` is non-null,
then add every pending reviewer login. -/
def buildRequestedReviewers (reviews : List Review) (pendingUsers : List String) : List String :=
  List.foldl setAdd
    (List.foldl (fun s r => match r.user with | some login => setAdd s login | none => s) [] reviews)
    pendingUsers

/-- The lead-reviewer loop of `src/src/main.ts`: walk `leadReviewers`; if
`Array.from(requestedReviewers).find(x => x === reviewer)` is null the verdict
becomes false and the loop breaks, otherwise the walk continues. -/
def areLeadReviewersInvited (leadReviewers : List String) (invited : List String) : Bool :=
  match leadReviewers with
  | [] => true
  | r :: rest =>
    if (invited.find? (fun x => x == r)).isSome then areLeadReviewersInvited rest invited
    else false

/-- Numeric value of a list of decimal-digit characters. -/
def digitsToNat (ds : List Char) : Nat :=
  ds.foldl (fun a c => 10 * a + (c.toNat - 48)) 0

/-- Longest leading run of decimal digits, or `none` when there is none;
the digit part of ECMAScript `parseInt` in radix 10. -/
def leadingDigits (cs : List Char) : Option Nat :=
  match cs.takeWhile Char.isDigit with
  | [] => none
  | ds => some (digitsToNat ds)

/-- ECMAScript `parseInt(s, 10)`: skip leading whitespace, read an optional
sign and then the longest leading digit run; `none` models the `NaN` result
produced when no digit follows. -/
def parseIntJS (s : String) : Option Int :=
  match s.toList.dropWhile Char.isWhitespace with
  | '-' :: rest => (leadingDigits rest).map (fun n => -(n : Int))
  | '+' :: rest => (leadingDigits rest).map (fun n => (n : Int))
  | cs => (leadingDigits cs).map (fun n => (n : Int))

/-- Result of the ECMAScript `ToNumber` conversion, idealized: `NaN`, the two
infinities, or an exact rational value (IEEE-754 rounding of the mathematical
value is not modelled; the action only tests `Number.isNaN` and sign, and
compares against small integer counts, which the exact value classifies
identically). -/
inductive JSNumber where
  | nan
  | posInf
  | negInf
  | val (q : ℚ)
deriving Repr, DecidableEq

/-- ECMAScript unary negation on a `ToNumber` result. -/
def JSNumber.neg : JSNumber → JSNumber
  | nan => nan
  | posInf => negInf
  | negInf => posInf
  | val q => val (-q)

/-- The test `Number.isNaN(n)`. -/
def JSNumber.isNaN : JSNumber → Bool
  | nan => true
  | _ => false

/-- The comparison `n <= 0`; false on `NaN` (any comparison with `NaN` is
false) and on `Infinity`, true on `-Infinity`. -/
def JSNumber.leZero : JSNumber → Bool
  | nan => false
  | posInf => false
  | negInf => true
  | val q => decide (q ≤ 0)

/-- Value of a decimal digit character, if it is one. -/
def decDigitVal (c : Char) : Option Nat :=
  if '0' ≤ c ∧ c ≤ '9' then some (c.toNat - 48) else none

/-- Value of a hexadecimal digit character, if it is one. -/
def hexDigitVal (c : Char) : Option Nat :=
  if '0' ≤ c ∧ c ≤ '9' then some (c.toNat - 48)
  else if 'a' ≤ c ∧ c ≤ 'f' then some (c.toNat - 87)
  else if 'A' ≤ c ∧ c ≤ 'F' then some (c.toNat - 55)
  else none

/-- Value of a binary digit character, if it is one. -/
def binDigitVal (c : Char) : Option Nat :=
  if c = '0' ∨ c = '1' then some (c.toNat - 48) else none

/-- Value of an octal digit character, if it is one. -/
def octDigitVal (c : Char) : Option Nat :=
  if '0' ≤ c ∧ c ≤ '7' then some (c.toNat - 48) else none

/-- Value of a non-empty digit string in the given radix; `none` when the
string is empty or contains a non-digit. -/
def radixValue (digVal : Char → Option Nat) (radix : Nat) : List Char → Option Nat
  | [] => none
  | cs => cs.foldl
      (fun acc c => acc.bind (fun a => (digVal c).map (fun d => radix * a + d)))
      (some 0)

/-- Split a character list at the first character satisfying `p`: the prefix
before it and, when it occurs, the suffix after it. -/
def splitAtFirst (p : Char → Bool) : List Char → List Char × Option (List Char)
  | [] => ([], none)
  | c :: rest =>
    if p c then ([], some rest)
    else
      let (pre, post) := splitAtFirst p rest
      (c :: pre, post)

/-- The ECMAScript `StrUnsignedDecimalLiteral` mantissa without its exponent:
`DecimalDigits`, `DecimalDigits . DecimalDigits?`, or `. DecimalDigits`. -/
def strUnsignedMantissa (cs : List Char) : Option ℚ :=
  match splitAtFirst (fun c => c = '.') cs with
  | (ip, none) => (radixValue decDigitVal 10 ip).map (fun n => (n : ℚ))
  | (ip, some fp) =>
    if ip = [] ∧ fp = [] then none
    else if ip.all Char.isDigit ∧ fp.all Char.isDigit then
      some ((digitsToNat ip : ℚ) + (digitsToNat fp : ℚ) / ((10 : ℚ) ^ fp.length))
    else none

/-- The ECMAScript `ExponentPart` after the `e`/`E`: an optionally signed
non-empty digit string. -/
def strExponent : List Char → Option Int
  | '-' :: rest => (radixValue decDigitVal 10 rest).map (fun n => -(n : Int))
  | '+' :: rest => (radixValue decDigitVal 10 rest).map (fun n => (n : Int))
  | rest => (radixValue decDigitVal 10 rest).map (fun n => (n : Int))

/-- The ECMAScript `StrUnsignedDecimalLiteral`: the literal `Infinity`, or a
mantissa with an optional `e`/`E` exponent. -/
def strUnsignedDecimal (cs : List Char) : Option JSNumber :=
  if cs = ['I', 'n', 'f', 'i', 'n', 'i', 't', 'y'] then some JSNumber.posInf
  else
    match splitAtFirst (fun c => c = 'e' ∨ c = 'E') cs with
    | (mant, none) => (strUnsignedMantissa mant).map JSNumber.val
    | (mant, some ecs) =>
      match strUnsignedMantissa mant, strExponent ecs with
      | some q, some e => some (JSNumber.val (q * (10 : ℚ) ^ e))
      | _, _ => none

/-- The ECMAScript `StrNumericLiteral` on a whitespace-trimmed character
list: empty converts to `0`; a sign applies only to a decimal literal or
`Infinity`; the unsigned `0b`/`0o`/`0x` prefixes introduce binary, octal and
hexadecimal integer literals; everything else is `NaN`. -/
def strNumericLiteral (cs : List Char) : JSNumber :=
  match cs with
  | [] => JSNumber.val 0
  | '-' :: rest => ((strUnsignedDecimal rest).map JSNumber.neg).getD JSNumber.nan
  | '+' :: rest => (strUnsignedDecimal rest).getD JSNumber.nan
  | '0' :: c :: rest =>
    if c = 'x' ∨ c = 'X' then
      ((radixValue hexDigitVal 16 rest).map (fun n => JSNumber.val (n : ℚ))).getD JSNumber.nan
    else if c = 'o' ∨ c = 'O' then
      ((radixValue octDigitVal 8 rest).map (fun n => JSNumber.val (n : ℚ))).getD JSNumber.nan
    else if c = 'b' ∨ c = 'B' then
      ((radixValue binDigitVal 2 rest).map (fun n => JSNumber.val (n : ℚ))).getD JSNumber.nan
    else (strUnsignedDecimal cs).getD JSNumber.nan
  | _ => (strUnsignedDecimal cs).getD JSNumber.nan

/-- ECMAScript `Number(s)` on strings: trim whitespace on both sides, then
apply the `StrNumericLiteral` grammar (decimal literals with fraction and
exponent, `Infinity`, and the binary/octal/hexadecimal integer forms). -/
def jsToNumber (s : String) : JSNumber :=
  strNumericLiteral
    ((s.toList.dropWhile Char.isWhitespace).reverse.dropWhile Char.isWhitespace |>.reverse)

/-- The unanchored test `/\d{1,2}/.test(s)` of `src/unnamed/part_001`: an
unanchored match of one-or-two digits succeeds exactly when the string
contains at least one decimal digit. -/
def regexDigitTest (s : String) : Bool :=
  s.toList.any Char.isDigit

/-- The `getRequiredApprovesAmount` of `src/unnamed/part_001` (regex variant).
The second component records whether `setFailed` was invoked; this function
never invokes it.  When the regex test succeeds, `parseInt` is applied and a
strictly positive result is returned; every other path returns the default 1
(`NaN > 0` is false, so a failed parse also falls through to the default). -/
def getRequiredApprovesAmountRegex (input : String) : Int × Bool :=
  if regexDigitTest input then
    match parseIntJS input with
    | some a => if 0 < a then (a, false) else (1, false)
    | none => (1, false)
  else (1, false)

/-- The `getRequiredApprovesAmount` of `src/unnamed/part_002` (`Number` variant).
Empty input returns the default 1; otherwise the input is converted with
`Number(...)`; if the result is `NaN` or satisfies `<= 0`, `setFailed` is
invoked (second component `true`), and in every case the converted value
itself is returned. -/
def getRequiredApprovesAmountNumber (input : String) : JSNumber × Bool :=
  if input = "" then (JSNumber.val 1, false)
  else
    let a := jsToNumber input
    (a, a.isNaN || a.leZero)

/-- The action check of `src/unnamed/part_001`:
`action === 'submitted' || action === 'review_requested'`. -/
def isAcceptableAction (action : Option String) : Bool :=
  action == some "submitted" || action == some "review_requested"

/-- Observable effects of one invocation: messages passed to `setFailed`,
`(name, value)` pairs passed to `setOutput`, and messages passed to `info`,
each in emission order. -/
structure RunEffects where
  failed : List String
  outputs : List (String × String)
  infos : List String
deriving Repr, DecidableEq

/-- Message of the missing-environment failure in all three entry points. -/
def envMissingMsg : String := "GITHUB_TOKEN, GITHUB_REPOSITORY or GITHUB_EVENT doesn't set"

/-- Message of the missing-pull-request failure in all three entry points. -/
def noPullRequestMsg : String := "This event doesn't contain PR"

/-- Message of the malformed-config-file failure in `src/src/main.ts`. -/
def cantProcessConfigMsg : String := "Can't process the config file"

/-- Message of the missing-reviewers-list failure in `src/src/main.ts`. -/
def couldNotReadLeadsMsg : String := "Could not read lead reviewers from the config"

/-- Rendering of a possibly-undefined string in a JavaScript template literal. -/
def jsDisplay : Option String → String
  | some s => s
  | none => "undefined"

/-- The `info` message of the unsupported-action branch of `src/unnamed/part_001`. -/
def unsupportedMsg (eventName action : Option String) : String :=
  jsDisplay eventName ++ "/" ++ jsDisplay action ++ "/ isn't supported."

/-- Effect-level model of `run()` in `src/unnamed/part_001` (regex review-policy
variant).  `envOk` abstracts `isExistGithubEnvironmentVariables`, `hasPR`
abstracts `payload.pull_request != null`, and the two API responses are the
`reviews` and `pending` parameters; the payload read and the two fetches are
assumed to succeed (a rejection is caught by the top-level handler, out of
scope here).  Order of checks follows the source: environment, pull request,
then the acceptable-action guard around the whole verdict computation. -/
def runReviewPolicyRegex (envOk hasPR : Bool) (eventName action : Option String)
    (approvesInput : String) (reviews : List Review) (pending : List String) : RunEffects :=
  if envOk = false then ⟨[envMissingMsg], [], []⟩
  else if hasPR = false then ⟨[noPullRequestMsg], [], []⟩
  else if isAcceptableAction action then
    let required := (getRequiredApprovesAmountRegex approvesInput).1
    let m := codeReviewProgress reviews pending
    let ok := isApproved m required
    ⟨[], [("isApproved", if ok then "true" else "false")], []⟩
  else ⟨[], [], [unsupportedMsg eventName action]⟩

/-- Effect-level model of `run()` in `src/src/main.ts` (lead-reviewer variant).
`configHasFields` abstracts `'content' in resp && 'encoding' in resp`,
`parsedIsArray` abstracts `leadReviewers instanceof Array`; the base64 decode
and the YAML parse are modelled as succeeding with result `leadReviewers`
(when they throw instead, the top-level handler catches, out of scope here).
The source raises `setFailed` on a malformed config but does not return, so
the model continues to the reviewer fetch, the verdict and the output. -/
def runLeadReviewerPolicy (envOk hasPR : Bool) (configHasFields parsedIsArray : Bool)
    (leadReviewers : List String) (reviews : List Review) (pendingUsers : List String) :
    RunEffects :=
  if envOk = false then ⟨[envMissingMsg], [], []⟩
  else if hasPR = false then ⟨[noPullRequestMsg], [], []⟩
  else
    let configFailures := if configHasFields then [] else [cantProcessConfigMsg]
    let arrayFailures := if parsedIsArray then [] else [couldNotReadLeadsMsg]
    let invited := buildRequestedReviewers reviews pendingUsers
    let verdict := areLeadReviewersInvited leadReviewers invited
    ⟨configFailures ++ arrayFailures,
     [("areLeadReviewersInvited", if verdict then "true" else "false")], []⟩

/-! Helper lemmas about the `Map` model. -/

@[simp]
theorem keys_nil : keys [] = [] := rfl

@[simp]
theorem keys_cons (p : String × ReviewState) (m : Aggregate) :
    keys (p :: m) = p.1 :: keys m := rfl

theorem lookupState_mapSet_self (m : Aggregate) (k : String) (v : ReviewState) :
    lookupState (mapSet m k v) k = some v := by
  induction m with
  | nil => simp [mapSet, lookupState]
  | cons p rest ih =>
    obtain ⟨k₀, v₀⟩ := p
    by_cases h : k₀ = k
    · simp [mapSet, lookupState, h]
    · simp [mapSet, lookupState, h, ih]

theorem lookupState_mapSet_ne (m : Aggregate) (k k' : String) (v : ReviewState)
    (h : k' ≠ k) : lookupState (mapSet m k' v) k = lookupState m k := by
  induction m with
  | nil =>
    simp only [mapSet, lookupState]
    rw [if_neg h]
  | cons p rest ih =>
    obtain ⟨k₀, v₀⟩ := p
    by_cases h₀ : k₀ = k'
    · have hk₀ : k₀ ≠ k := by rw [h₀]; exact h
      simp [mapSet, lookupState, h₀, hk₀, h]
    · by_cases h₁ : k₀ = k
      · subst h₁
        simp [mapSet, lookupState, h₀]
      · simp [mapSet, lookupState, h₀, h₁, ih]

theorem mem_keys_mapSet (m : Aggregate) (k x : String) (v : ReviewState) :
    x ∈ keys (mapSet m k v) ↔ x ∈ keys m ∨ x = k := by
  induction m with
  | nil => simp [mapSet, keys]
  | cons p rest ih =>
    obtain ⟨k₀, v₀⟩ := p
    by_cases h : k₀ = k
    · subst h
      have hms : mapSet ((k₀, v₀) :: rest) k₀ v = (k₀, v) :: rest := by
        simp [mapSet]
      rw [hms, keys_cons, keys_cons]
      simp only [List.mem_cons]
      tauto
    · have hms : mapSet ((k₀, v₀) :: rest) k v = (k₀, v₀) :: mapSet rest k v := by
        simp [mapSet, h]
      rw [hms, keys_cons, keys_cons]
      simp only [List.mem_cons]
      rw [ih]
      tauto

theorem nodup_keys_mapSet (m : Aggregate) (k : String) (v : ReviewState)
    (h : (keys m).Nodup) : (keys (mapSet m k v)).Nodup := by
  induction m with
  | nil => simp [mapSet]
  | cons p rest ih =>
    obtain ⟨k₀, v₀⟩ := p
    rw [keys_cons, List.nodup_cons] at h
    by_cases h₀ : k₀ = k
    · have hms : mapSet ((k₀, v₀) :: rest) k v = (k₀, v) :: rest := by
        simp [mapSet, h₀]
      rw [hms, keys_cons, List.nodup_cons]
      exact h
    · have hms : mapSet ((k₀, v₀) :: rest) k v = (k₀, v₀) :: mapSet rest k v := by
        simp [mapSet, h₀]
      rw [hms, keys_cons, List.nodup_cons]
      refine ⟨fun hmem => ?_, ih h.2⟩
      rcases (mem_keys_mapSet rest k k₀ v).mp hmem with hm | he
      · exact h.1 hm
      · exact h₀ he

theorem nodup_keys_reviewFold (reviews : List Review) :
    ∀ (m : Aggregate), (keys m).Nodup →
      (keys (List.foldl reviewStep m reviews)).Nodup := by
  induction reviews with
  | nil => intro m h; simpa using h
  | cons r rest ih =>
    intro m h
    simp only [List.foldl_cons]
    apply ih
    cases hu : r.user with
    | none => simpa [reviewStep, hu] using h
    | some login =>
      simpa [reviewStep, hu] using nodup_keys_mapSet m login r.state h

theorem nodup_keys_pendingFold (pending : List String) :
    ∀ (m : Aggregate), (keys m).Nodup →
      (keys (List.foldl pendingStep m pending)).Nodup := by
  induction pending with
  | nil => intro m h; simpa using h
  | cons l rest ih =>
    intro m h
    simp only [List.foldl_cons]
    exact ih _ (nodup_keys_mapSet m l ReviewState.Pending h)

theorem pendingFold_lookup_of_pending (pending : List String) :
    ∀ (m : Aggregate) (u : String), lookupState m u = some ReviewState.Pending →
      lookupState (List.foldl pendingStep m pending) u = some ReviewState.Pending := by
  induction pending with
  | nil => intro m u h; simpa using h
  | cons l rest ih =>
    intro m u h
    simp only [List.foldl_cons]
    apply ih
    by_cases hl : l = u
    · subst hl
      exact lookupState_mapSet_self m l ReviewState.Pending
    · show lookupState (mapSet m l ReviewState.Pending) u = some ReviewState.Pending
      rw [lookupState_mapSet_ne m u l ReviewState.Pending hl]
      exact h

theorem pendingFold_lookup_mem (pending : List String) :
    ∀ (m : Aggregate) (u : String), u ∈ pending →
      lookupState (List.foldl pendingStep m pending) u = some ReviewState.Pending := by
  induction pending with
  | nil => intro m u h; simp at h
  | cons l rest ih =>
    intro m u h
    simp only [List.foldl_cons]
    by_cases hl : l = u
    · subst hl
      exact pendingFold_lookup_of_pending rest _ l
        (lookupState_mapSet_self m l ReviewState.Pending)
    · rcases List.mem_cons.mp h with h' | h'
      · exact absurd h'.symm hl
      · exact ih _ u h'

theorem pendingFold_lookup_notmem (pending : List String) :
    ∀ (m : Aggregate) (u : String), u ∉ pending →
      lookupState (List.foldl pendingStep m pending) u = lookupState m u := by
  induction pending with
  | nil => intro m u _; simp
  | cons l rest ih =>
    intro m u h
    simp only [List.mem_cons, not_or] at h
    simp only [List.foldl_cons]
    rw [ih _ u h.2]
    show lookupState (mapSet m l ReviewState.Pending) u = lookupState m u
    exact lookupState_mapSet_ne m u l ReviewState.Pending (fun hlu => h.1 hlu.symm)

theorem reviewFold_lookup (u : String) (reviews : List Review) (m : Aggregate) :
    lookupState (List.foldl reviewStep m reviews) u =
      ((reviews.filter (fun r => r.user == some u)).getLast?).elim (lookupState m u)
        (fun rl => some rl.state) := by
  induction reviews using List.reverseRecOn with
  | nil => simp
  | append_singleton l r ih =>
    rw [List.foldl_append]
    by_cases hr : r.user = some u
    · have hfil : List.filter (fun r => r.user == some u) (l ++ [r])
          = List.filter (fun r => r.user == some u) l ++ [r] := by
        rw [List.filter_append]
        simp [hr]
      rw [hfil, List.getLast?_concat]
      simp only [Option.elim]
      simp only [List.foldl_cons, List.foldl_nil]
      show lookupState (reviewStep (List.foldl reviewStep m l) r) u = some r.state
      simp only [reviewStep, hr]
      exact lookupState_mapSet_self _ u r.state
    · have hfil : List.filter (fun r => r.user == some u) (l ++ [r])
          = List.filter (fun r => r.user == some u) l := by
        rw [List.filter_append]
        simp [hr]
      rw [hfil, ← ih]
      simp only [List.foldl_cons, List.foldl_nil]
      cases hu : r.user with
      | none =>
        show lookupState (reviewStep (List.foldl reviewStep m l) r) u = _
        simp only [reviewStep, hu]
      | some login =>
        have hne : login ≠ u := by
          intro he
          exact hr (by rw [hu, he])
        show lookupState (reviewStep (List.foldl reviewStep m l) r) u = _
        simp only [reviewStep, hu]
        exact lookupState_mapSet_ne _ u login r.state hne

theorem nodup_setAdd (s : List String) (x : String) (h : s.Nodup) : (setAdd s x).Nodup := by
  by_cases hx : x ∈ s
  · simpa [setAdd, hx] using h
  · simp [setAdd, hx, List.nodup_append, h]

theorem nodup_buildRequestedReviewers (reviews : List Review) (pendingUsers : List String) :
    (buildRequestedReviewers reviews pendingUsers).Nodup := by
  have hstep : ∀ (rs : List Review) (s : List String), s.Nodup →
      (List.foldl (fun s r => match r.user with | some login => setAdd s login | none => s)
        s rs).Nodup := by
    intro rs
    induction rs with
    | nil => intro s h; simpa using h
    | cons r rest ih =>
      intro s h
      simp only [List.foldl_cons]
      apply ih
      cases hu : r.user with
      | none => simpa [hu] using h
      | some login => simpa [hu] using nodup_setAdd s login h
  have hpend : ∀ (ps : List String) (s : List String), s.Nodup →
      (List.foldl setAdd s ps).Nodup := by
    intro ps
    induction ps with
    | nil => intro s h; simpa using h
    | cons p rest ih =>
      intro s h
      simp only [List.foldl_cons]
      exact ih _ (nodup_setAdd s p h)
  exact hpend pendingUsers _ (hstep reviews [] (by simp))

/-! Claim theorems. -/

/-- C1: for every `ReviewerStatus` aggregate and every `requiredApprovals`
threshold, the Approval-Policy verdict is true iff the number of entries whose
state is Approved is at least the threshold and the number of entries whose
state is ChangesRequested is zero; in particular one ChangesRequested entry
makes the verdict false no matter how many Approved entries exist. -/
theorem approval_policy_iff (m : Aggregate) (required : Int) :
    (isApproved m required = true ↔
      (required ≤ (m.countP (fun p => p.2 == ReviewState.Approved) : Int) ∧
       m.countP (fun p => p.2 == ReviewState.ChangesRequested) = 0)) ∧
    (∀ p ∈ m, p.2 = ReviewState.ChangesRequested → isApproved m required = false) := by
  have hA : approvesAmountOf m = m.countP (fun p => p.2 == ReviewState.Approved) := by
    rw [approvesAmountOf, reviewStatesOf, ← List.countP_eq_length_filter, List.countP_map]
    rfl
  have hC : changesRequestedAmountOf m
      = m.countP (fun p => p.2 == ReviewState.ChangesRequested) := by
    rw [changesRequestedAmountOf, reviewStatesOf, ← List.countP_eq_length_filter,
        List.countP_map]
    rfl
  constructor
  · rw [isApproved, hA, hC]
    simp
  · intro p hp hcr
    have hpos : 0 < changesRequestedAmountOf m := by
      rw [hC, List.countP_pos_iff]
      exact ⟨p, hp, by simp [hcr]⟩
    have hne : changesRequestedAmountOf m ≠ 0 := by omega
    simp [isApproved, hne]

/-- Witness for C1 at a concrete aggregate and threshold. -/
theorem approval_policy_iff_witness :
    isApproved [("A", ReviewState.Approved)] 1 = true :=
  (approval_policy_iff [("A", ReviewState.Approved)] 1).1.mpr (by decide)

/-- C2: a reviewer identity that authored a posted review and also appears in
the pending-review-requests list ends with aggregate state Pending: the
pending pass runs after the review pass and overwrites unconditionally. -/
theorem pending_overrides_review (reviews : List Review) (pending : List String) (u : String)
    (_hrev : ∃ r ∈ reviews, r.user = some u) (hpend : u ∈ pending) :
    lookupState (codeReviewProgress reviews pending) u = some ReviewState.Pending := by
  rw [codeReviewProgress]
  exact pendingFold_lookup_mem pending _ u hpend

/-- Witness for C2: the reviewer posted an Approved review and is pending. -/
theorem pending_overrides_review_witness :
    (∃ r ∈ [Review.mk (some "A") ReviewState.Approved], r.user = some "A") ∧
    "A" ∈ ["A"] ∧
    lookupState (codeReviewProgress [Review.mk (some "A") ReviewState.Approved] ["A"]) "A"
      = some ReviewState.Pending :=
  ⟨by decide, by decide, pending_overrides_review _ _ _ (by decide) (by decide)⟩

/-- C3 counterexample: a reviewer with reviews [Approved, ChangesRequested]
who also appears in the pending list is mapped to Pending, not to the state of
the last review, so the claim fails as stated (it quantifies over every
aggregation input). -/
theorem last_review_wins_counterexample :
    lookupState (codeReviewProgress
        [Review.mk (some "A") ReviewState.Approved,
         Review.mk (some "A") ReviewState.ChangesRequested] ["A"]) "A"
      ≠ some ReviewState.ChangesRequested ∧
    lookupState (codeReviewProgress
        [Review.mk (some "A") ReviewState.Approved,
         Review.mk (some "A") ReviewState.ChangesRequested] ["A"]) "A"
      = some ReviewState.Pending := by
  decide

/-- C3 (amended): for every reviewer identity with multiple posted reviews in
the input sequence that does not appear in the pending-review-requests list,
the aggregate maps that identity to the state of the last (most recent) of its
reviews in sequence order. -/
theorem last_review_wins (reviews : List Review) (pending : List String) (u : String)
    (rl : Review) (hpend : u ∉ pending)
    (_hmult : 2 ≤ (reviews.filter (fun r => r.user == some u)).length)
    (hlast : (reviews.filter (fun r => r.user == some u)).getLast? = some rl) :
    lookupState (codeReviewProgress reviews pending) u = some rl.state := by
  rw [codeReviewProgress, pendingFold_lookup_notmem pending _ u hpend,
      reviewFold_lookup u reviews [], hlast]
  rfl

/-- Witness for C3 (amended): reviews [Approved, ChangesRequested] by one
reviewer, empty pending list, aggregate state ChangesRequested. -/
theorem last_review_wins_witness :
    ("A" ∉ ([] : List String)) ∧
    2 ≤ ([Review.mk (some "A") ReviewState.Approved,
          Review.mk (some "A") ReviewState.ChangesRequested].filter
            (fun r => r.user == some "A")).length ∧
    ([Review.mk (some "A") ReviewState.Approved,
      Review.mk (some "A") ReviewState.ChangesRequested].filter
        (fun r => r.user == some "A")).getLast?
      = some (Review.mk (some "A") ReviewState.ChangesRequested) ∧
    lookupState (codeReviewProgress
        [Review.mk (some "A") ReviewState.Approved,
         Review.mk (some "A") ReviewState.ChangesRequested] []) "A"
      = some (Review.mk (some "A") ReviewState.ChangesRequested).state :=
  ⟨by decide, by decide, by decide,
    last_review_wins _ _ _ _ (by decide) (by decide) (by decide)⟩

/-- C4: the Lead-Reviewer-Policy verdict is true iff every identity in
`leadReviewers` is a member of the invited-identities list (exact string
comparison); an empty `leadReviewers` yields true regardless of the invited
list. -/
theorem lead_reviewer_policy_iff (lead invited : List String) :
    (areLeadReviewersInvited lead invited = true ↔ ∀ r ∈ lead, r ∈ invited) ∧
    areLeadReviewersInvited [] invited = true := by
  refine ⟨?_, rfl⟩
  induction lead with
  | nil => simp [areLeadReviewersInvited]
  | cons r rest ih =>
    by_cases hr : r ∈ invited
    · have hfind : (invited.find? (fun x => x == r)).isSome = true := by
        rw [List.find?_isSome]
        exact ⟨r, hr, by simp⟩
      have hstep : areLeadReviewersInvited (r :: rest) invited
          = areLeadReviewersInvited rest invited := by
        simp [areLeadReviewersInvited, hfind]
      rw [hstep, ih]
      constructor
      · intro hall x hx
        rcases List.mem_cons.mp hx with rfl | hx'
        · exact hr
        · exact hall x hx'
      · intro hall x hx
        exact hall x (List.mem_cons_of_mem r hx)
    · have hfind : invited.find? (fun x => x == r) = none := by
        rw [List.find?_eq_none]
        intro x hx hbx
        have hxr : x = r := by simpa using hbx
        exact hr (hxr ▸ hx)
      have hstep : areLeadReviewersInvited (r :: rest) invited = false := by
        simp [areLeadReviewersInvited, hfind]
      rw [hstep]
      simp only [Bool.false_eq_true, false_iff]
      intro hall
      exact hr (hall r (List.mem_cons_self r rest))

/-- Witness for C4 at a concrete lead list and invited list. -/
theorem lead_reviewer_policy_iff_witness :
    areLeadReviewersInvited ["X", "Y"] ["X", "Y", "Z"] = true :=
  (lead_reviewer_policy_iff ["X", "Y"] ["X", "Y", "Z"]).1.mpr (by decide)

/-- C5 counterexample: the `Number`-variant threshold reader maps the
malformed (non-positive-integer) input `"-2"` to the threshold `-2`, not to
the default `1`, while raising a failure signal. -/
theorem default_threshold_counterexample :
    getRequiredApprovesAmountNumber "-2" = (JSNumber.val (-2), true) ∧
    JSNumber.val (-2) ≠ JSNumber.val 1 := by
  decide

/-- C5 (amended): an unset or empty required-approvals input yields the
default threshold 1 in both variants, and in the regex variant any input
containing no decimal digit also yields 1; but in the `Number` variant a
non-empty input is never defaulted: the `Number(...)` conversion itself is
used as the threshold, with a failure signal raised exactly when that value
is `NaN` or non-positive — so `"-2"` yields threshold `-2` with a failure
signal, while the non-integer `"2.5"` yields threshold `2.5` with no failure
signal. -/
theorem default_threshold_amended (s t : String)
    (hs : regexDigitTest s = false) (ht : t ≠ "") :
    (getRequiredApprovesAmountRegex s).1 = 1 ∧
    getRequiredApprovesAmountRegex "" = (1, false) ∧
    getRequiredApprovesAmountNumber "" = (JSNumber.val 1, false) ∧
    (getRequiredApprovesAmountNumber t).1 = jsToNumber t ∧
    ((getRequiredApprovesAmountNumber t).2 = true ↔
      ((jsToNumber t).isNaN = true ∨ (jsToNumber t).leZero = true)) ∧
    getRequiredApprovesAmountNumber "-2" = (JSNumber.val (-2), true) ∧
    getRequiredApprovesAmountNumber "2.5" = (JSNumber.val (5 / 2), false) := by
  have h25q : jsToNumber "2.5" = JSNumber.val (5 / 2) := by
    have hr : jsToNumber "2.5"
        = JSNumber.val ((digitsToNat ['2'] : ℚ)
            + (digitsToNat ['5'] : ℚ) / ((10 : ℚ) ^ (['5'] : List Char).length)) := rfl
    have hd2 : digitsToNat ['2'] = 2 := rfl
    have hd5 : digitsToNat ['5'] = 5 := rfl
    have hlen : (['5'] : List Char).length = 1 := rfl
    rw [hr, hd2, hd5, hlen]
    norm_num
  have h25 : getRequiredApprovesAmountNumber "2.5" = (JSNumber.val (5 / 2), false) := by
    rw [getRequiredApprovesAmountNumber, if_neg (by decide : ¬ ("2.5" = ""))]
    show (jsToNumber "2.5", (jsToNumber "2.5").isNaN || (jsToNumber "2.5").leZero)
        = (JSNumber.val (5 / 2), false)
    rw [h25q]
    simp only [JSNumber.isNaN, JSNumber.leZero, Bool.false_or, Prod.mk.injEq,
      decide_eq_false_iff_not]
    refine ⟨trivial, ?_⟩
    norm_num
  refine ⟨?_, by decide, by decide, ?_, ?_, by decide, h25⟩
  · simp [getRequiredApprovesAmountRegex, hs]
  · simp [getRequiredApprovesAmountNumber, ht]
  · simp [getRequiredApprovesAmountNumber, ht]

/-- Witness for C5 (amended) at the digit-free input "abc" and the non-empty
input "-2". -/
theorem default_threshold_amended_witness :
    (regexDigitTest "abc" = false ∧ "-2" ≠ "") ∧
    ((getRequiredApprovesAmountRegex "abc").1 = 1 ∧
     getRequiredApprovesAmountRegex "" = (1, false) ∧
     getRequiredApprovesAmountNumber "" = (JSNumber.val 1, false) ∧
     (getRequiredApprovesAmountNumber "-2").1 = jsToNumber "-2" ∧
     ((getRequiredApprovesAmountNumber "-2").2 = true ↔
       ((jsToNumber "-2").isNaN = true ∨ (jsToNumber "-2").leZero = true)) ∧
     getRequiredApprovesAmountNumber "-2" = (JSNumber.val (-2), true) ∧
     getRequiredApprovesAmountNumber "2.5" = (JSNumber.val (5 / 2), false)) :=
  ⟨⟨by decide, by decide⟩,
    default_threshold_amended "abc" "-2" (by decide) (by decide)⟩

/-- C6: in the review-policy variant, a trigger whose action is neither
"submitted" nor "review_requested" exits normally: no output is published, no
failure signal is raised, only the informational log line is emitted. -/
theorem unsupported_action_skips (envOk hasPR : Bool) (eventName action : Option String)
    (input : String) (reviews : List Review) (pending : List String)
    (henv : envOk = true) (hpr : hasPR = true)
    (hact : isAcceptableAction action = false) :
    runReviewPolicyRegex envOk hasPR eventName action input reviews pending
      = ⟨[], [], [unsupportedMsg eventName action]⟩ := by
  subst henv hpr
  simp [runReviewPolicyRegex, hact]

/-- Witness for C6 at the unsupported action "edited". -/
theorem unsupported_action_skips_witness :
    ((true : Bool) = true ∧ (true : Bool) = true ∧
      isAcceptableAction (some "edited") = false) ∧
    runReviewPolicyRegex true true (some "pull_request_review") (some "edited") "" [] []
      = ⟨[], [], [unsupportedMsg (some "pull_request_review") (some "edited")]⟩ :=
  ⟨⟨rfl, rfl, by decide⟩,
    unsupported_action_skips true true (some "pull_request_review") (some "edited") "" [] []
      rfl rfl (by decide)⟩

/-- C7: in the lead-reviewer variant, a fetched configuration object lacking
the content or encoding fields, or a decoded document without the expected
reviewers list, raises a failure signal but execution continues: the
aggregation runs and the output is still published. -/
theorem malformed_config_continues (envOk hasPR configHasFields parsedIsArray : Bool)
    (lead : List String) (reviews : List Review) (pendingUsers : List String)
    (henv : envOk = true) (hpr : hasPR = true)
    (hbad : configHasFields = false ∨ parsedIsArray = false) :
    (runLeadReviewerPolicy envOk hasPR configHasFields parsedIsArray lead reviews
        pendingUsers).failed ≠ [] ∧
    (runLeadReviewerPolicy envOk hasPR configHasFields parsedIsArray lead reviews
        pendingUsers).outputs
      = [("areLeadReviewersInvited",
          if areLeadReviewersInvited lead (buildRequestedReviewers reviews pendingUsers)
          then "true" else "false")] := by
  subst henv hpr
  rcases hbad with hb | hb <;> subst hb
  · cases parsedIsArray <;> simp [runLeadReviewerPolicy]
  · cases configHasFields <;> simp [runLeadReviewerPolicy]

/-- Witness for C7: missing content/encoding fields, output still published. -/
theorem malformed_config_continues_witness :
    ((true : Bool) = true ∧ (true : Bool) = true ∧
      ((false : Bool) = false ∨ (true : Bool) = false)) ∧
    ((runLeadReviewerPolicy true true false true ["X"] [] ["X"]).failed ≠ [] ∧
     (runLeadReviewerPolicy true true false true ["X"] [] ["X"]).outputs
       = [("areLeadReviewersInvited",
           if areLeadReviewersInvited ["X"] (buildRequestedReviewers [] ["X"])
           then "true" else "false")]) :=
  ⟨⟨rfl, rfl, Or.inl rfl⟩,
    malformed_config_continues true true false true ["X"] [] ["X"] rfl rfl (Or.inl rfl)⟩

/-- C8: a posted review whose reviewer identity is null contributes nothing to
the aggregate: the mapping equals the one built from the same sequence with
that review removed. -/
theorem null_reviewer_skipped (pre post : List Review) (pending : List String) (r : Review)
    (h : r.user = none) :
    codeReviewProgress (pre ++ r :: post) pending
      = codeReviewProgress (pre ++ post) pending := by
  rw [codeReviewProgress, codeReviewProgress, List.foldl_append, List.foldl_append,
      List.foldl_cons]
  simp only [reviewStep, h]

/-- Witness for C8 at a concrete review list containing a null-user review. -/
theorem null_reviewer_skipped_witness :
    (Review.mk none ReviewState.Approved).user = none ∧
    codeReviewProgress ([Review.mk (some "A") ReviewState.Approved]
        ++ Review.mk none ReviewState.Approved :: [Review.mk (some "B") ReviewState.Pending])
        ["C"]
      = codeReviewProgress ([Review.mk (some "A") ReviewState.Approved]
        ++ [Review.mk (some "B") ReviewState.Pending]) ["C"] :=
  ⟨rfl, null_reviewer_skipped _ _ _ _ rfl⟩

/-- C9: at every point during and after aggregation the mapping holds at most
one state per reviewer identity: every intermediate fold state has
duplicate-free keys, so does the final aggregate, a further `Map.set` on it
keeps the keys duplicate-free (replace, never duplicate), and the
requested-reviewers set of the lead variant is duplicate-free as well. -/
theorem aggregate_keys_nodup (reviews : List Review) (pending : List String) :
    (∀ i j : Nat,
      (keys (List.foldl pendingStep (List.foldl reviewStep [] (reviews.take i))
        (pending.take j))).Nodup) ∧
    (keys (codeReviewProgress reviews pending)).Nodup ∧
    (∀ (k : String) (v : ReviewState),
      (keys (mapSet (codeReviewProgress reviews pending) k v)).Nodup) ∧
    (buildRequestedReviewers reviews pending).Nodup := by
  have hbase : ∀ (rs : List Review) (ps : List String),
      (keys (List.foldl pendingStep (List.foldl reviewStep [] rs) ps)).Nodup :=
    fun rs ps => nodup_keys_pendingFold ps _ (nodup_keys_reviewFold rs [] (by simp))
  refine ⟨fun i j => hbase _ _, hbase reviews pending, fun k v => ?_,
    nodup_buildRequestedReviewers reviews pending⟩
  exact nodup_keys_mapSet _ k v (hbase reviews pending)

/-- Witness for C9 at a concrete input. -/
theorem aggregate_keys_nodup_witness :
    (keys (codeReviewProgress [Review.mk (some "A") ReviewState.Approved] ["A", "B"])).Nodup :=
  (aggregate_keys_nodup [Review.mk (some "A") ReviewState.Approved] ["A", "B"]).2.1

/-- C10: in the regex-variant threshold reader, a string containing a decimal
digit whose `parseInt` value is strictly positive yields exactly that value —
including three-or-more-digit values such as "100" and strings with trailing
non-digits such as "12abc" — while every other string (no digit, failed parse,
or non-positive parse) yields the default 1; no path raises a failure
signal (the second component is always `false`). -/
theorem regex_threshold_spec (s : String) :
    (∀ n : Int, regexDigitTest s = true → parseIntJS s = some n → 0 < n →
      getRequiredApprovesAmountRegex s = (n, false)) ∧
    ((regexDigitTest s = false ∨ parseIntJS s = none ∨
        (∃ n : Int, parseIntJS s = some n ∧ n ≤ 0)) →
      getRequiredApprovesAmountRegex s = (1, false)) ∧
    getRequiredApprovesAmountRegex "100" = (100, false) ∧
    getRequiredApprovesAmountRegex "12abc" = (12, false) := by
  refine ⟨?_, ?_, by decide, by decide⟩
  · intro n hd hp hn
    simp [getRequiredApprovesAmountRegex, hd, hp, hn]
  · intro hcase
    rcases hcase with hd | hp | ⟨n, hp, hn⟩
    · simp [getRequiredApprovesAmountRegex, hd]
    · cases hreg : regexDigitTest s <;>
        simp [getRequiredApprovesAmountRegex, hreg, hp]
    · cases hreg : regexDigitTest s <;>
        simp [getRequiredApprovesAmountRegex, hreg, hp, show ¬ 0 < n by omega]

/-- Witness for C10 at the three-digit input "100". -/
theorem regex_threshold_spec_witness :
    getRequiredApprovesAmountRegex "100" = (100, false) :=
  (regex_threshold_spec "100").2.2.1

end PrApproved
